import Mathlib

/-!
Verification of the retrieval and reconciliation engine of `src/server.js`
(the `/search` endpoint of the z3po server), as a shallow embedding.

Modelling conventions, fixed once here:

* JavaScript values reachable from the JSON knowledge base are modelled by
  `JSValue`.  Similarity scores are modelled as integers (`Int`): the code
  only compares scores (`b.score - a.score`) and copies them, so any linearly
  ordered numeric type is faithful; IEEE-754 artefacts (`NaN` scores) are
  outside the model.
* `guideData` is a plain object produced by `JSON.parse`, so property access
  `o[k]` on it and on its plain-object members consults the own properties
  first and then `Object.prototype` (`constructor`, `toString`, …); this
  inheritance is modelled by `jsGet`/`objectProtoGet`.  Property access on
  receivers that are not plain objects (functions, strings, numbers) lies
  outside the modelled fragment: `jsGet` returns `undefined` there, and theorems
  whose meaning depends on container access carry an `inFragment` hypothesis
  restricting the tag's category to a falsy value, an array, or a plain
  object — exactly the shapes the spec's data model admits.
* `parseInt` is modelled exactly (leading whitespace, one optional sign, an
  optional `0x`/`0X` prefix selecting base 16, then the longest prefix of
  digits; no digits means `NaN`, modelled as `none`).  Whitespace is the
  common ASCII fragment recognised by `Char.isWhitespace`.
* `source.split(' > ')` is modelled by `jsSplit`, a direct left-to-right
  scan for the three-character separator, matching `String.prototype.split`
  with a string separator.
* A tag with no `" > "` yields `pathParts[1] === undefined`; the `undefined`
  key is modelled as `Option.none`, coerced to the string `"undefined"`
  where JavaScript coerces it (as `parseInt` argument and as property key),
  while the stored `uniqueId` keeps the raw `undefined` (`none`).
* The per-request handler is `postSearch`; the external collaborators are
  parameters: the similarity index's reply is the `matches` argument, and
  the embedding pipeline is only recorded as called/not called.  The `catch`
  branch (a collaborator throwing, surfaced as 500) is outside the model.
-/

namespace Z3po

/-- A JSON-style JavaScript value, extended with the two kinds of
non-JSON values reachable through `Object.prototype`: built-in function
values (`func`, carrying the function's name) and the `Object.prototype`
object itself (`protoObj`, the value of `__proto__` on a plain object). -/
inductive JSValue where
  | undefined
  | null
  | bool (b : Bool)
  | num (n : Int)
  | str (s : String)
  | arr (elems : List JSValue)
  | obj (fields : List (String × JSValue))
  | func (name : String)
  | protoObj

/-- JavaScript truthiness of a modelled value. -/
def truthy : JSValue → Bool
  | .undefined => false
  | .null => false
  | .bool b => b
  | .num n => n != 0
  | .str s => s != ""
  | _ => true

/-- First-match lookup in an association list of object fields.  `JSON.parse`
produces objects with pairwise distinct keys (a duplicated key keeps only its
last occurrence), so on the objects the server actually holds this is plain
own-property lookup. -/
def lookupKey : List (String × JSValue) → String → Option JSValue
  | [], _ => none
  | (k', v) :: rest, k => if k' = k then some v else lookupKey rest k

/-- The properties a plain object inherits from `Object.prototype`: the
built-in methods (all function values, hence truthy) and the `__proto__`
accessor, whose value on a plain object is `Object.prototype` itself. -/
def protoProps : List (String × JSValue) :=
  [("constructor", .func "Object"),
   ("hasOwnProperty", .func "hasOwnProperty"),
   ("isPrototypeOf", .func "isPrototypeOf"),
   ("propertyIsEnumerable", .func "propertyIsEnumerable"),
   ("toLocaleString", .func "toLocaleString"),
   ("toString", .func "toString"),
   ("valueOf", .func "valueOf"),
   ("__defineGetter__", .func "__defineGetter__"),
   ("__defineSetter__", .func "__defineSetter__"),
   ("__lookupGetter__", .func "__lookupGetter__"),
   ("__lookupSetter__", .func "__lookupSetter__"),
   ("__proto__", .protoObj)]

/-- Lookup on `Object.prototype`. -/
def objectProtoGet (k : String) : Option JSValue :=
  lookupKey protoProps k

/-- Property access `receiver[key]` for the modelled receivers: a plain
object consults its own fields and then `Object.prototype`;
`Object.prototype` itself has those same methods as own properties and a
`null` prototype.  Receivers outside the modelled fragment (functions,
strings, numbers, booleans) give `undefined`; theorems that depend on container
access exclude them through `inFragment`. -/
def jsGet : JSValue → String → JSValue
  | .obj fields, k =>
    match lookupKey fields k with
    | some v => v
    | none => (objectProtoGet k).getD .undefined
  | .protoObj, k => if k = "__proto__" then .null else (objectProtoGet k).getD .undefined
  | _, _ => .undefined

/-- Array element access `xs[i]` with an integral number index: the element
when `0 ≤ i < length`, `undefined` otherwise (negative indexes are not array
indexes; `-0` is modelled as the integer `0`, matching `ToString(-0) = "0"`). -/
def arrGet (xs : List JSValue) (i : Int) : JSValue :=
  if h : 0 ≤ i ∧ i.toNat < xs.length then xs.get ⟨i.toNat, h.2⟩ else .undefined

/-- Scan for the separator `" > "` left to right, accumulating the current
piece in reverse; the direct specialisation of `String.prototype.split` to
the server's separator. -/
def splitSepAux : List Char → List Char → List (List Char)
  | ' ' :: '>' :: ' ' :: rest, acc => acc.reverse :: splitSepAux rest []
  | c :: rest, acc => splitSepAux rest (c :: acc)
  | [], acc => [acc.reverse]

/-- `source.split(' > ')`. -/
def jsSplit (source : String) : List String :=
  (splitSepAux source.toList []).map List.asString

/-- The numeric value of a digit below the given radix, `none` otherwise. -/
def digitVal? (radix : Nat) (c : Char) : Option Nat :=
  let d : Option Nat :=
    if '0' ≤ c ∧ c ≤ '9' then some (c.toNat - '0'.toNat)
    else if 'a' ≤ c ∧ c ≤ 'f' then some (c.toNat - 'a'.toNat + 10)
    else if 'A' ≤ c ∧ c ≤ 'F' then some (c.toNat - 'A'.toNat + 10)
    else none
  match d with
  | some d => if d < radix then some d else none
  | none => none

/-- JavaScript `parseInt(s)` with the radix argument omitted: skip leading
whitespace, read one optional sign, read an optional `0x`/`0X` prefix
(selecting base 16), then take the longest prefix of digits of the radix;
`none` models `NaN` (no digits at all).  The digit string is kept exact
rather than rounded to a binary double: the two renderings only differ for
indexes above `2^53`, which are out of bounds of every modelled array. -/
def jsParseInt (s : String) : Option Int :=
  let cs := s.toList.dropWhile Char.isWhitespace
  let signed : Bool × List Char :=
    match cs with
    | '-' :: r => (true, r)
    | '+' :: r => (false, r)
    | r => (false, r)
  let based : Nat × List Char :=
    match signed.2 with
    | '0' :: 'x' :: r => (16, r)
    | '0' :: 'X' :: r => (16, r)
    | r => (10, r)
  let ds := based.2.takeWhile fun c => (digitVal? based.1 c).isSome
  if ds.isEmpty then none
  else
    let n : Nat := ds.foldl (fun a c => a * based.1 + (digitVal? based.1 c).getD 0) 0
    some (if signed.1 then -(n : Int) else (n : Int))

/-- One similarity match as returned by the index: a metadata source tag and
a similarity score. -/
structure Match where
  source : String
  score : Int
deriving DecidableEq

/-- The body of the path-resolution block of the `/search` handler
(`src/server.js` lines 96–112), after the category and key-or-index have
been read off the split parts: look the category up on `guideData`, then
branch on `Array.isArray`: an array is indexed by `parseInt` of the key
(`undefined` coercing to the string `"undefined"`), a non-array is accessed
with the key as property key; a falsy guide leaves the match unresolved.
Returns the pair `(uniqueId, guide)` exactly when the handler assigns
both. -/
def resolveParts (guideData : JSValue) (category : String) (keyOrIndex? : Option String) :
    Option (Option String × JSValue) :=
  let catVal := jsGet guideData category
  if truthy catVal then
    match catVal with
    | .arr xs =>
      (match jsParseInt (keyOrIndex?.getD "undefined") with
       | none => none
       | some i =>
         let g := arrGet xs i
         if truthy g then some (some (category ++ "-" ++ toString i), g) else none)
    | _ =>
      let g := jsGet catVal (keyOrIndex?.getD "undefined")
      if truthy g then some (keyOrIndex?, g) else none
  else none

/-- The path-resolution block of the `/search` handler (`src/server.js`
lines 90–112): split the tag on `" > "`, take `pathParts[0]` as the
category and `pathParts[1]` as the key-or-index (`undefined` when the split
yields a single part), then resolve. -/
def resolveMatch (guideData : JSValue) (source : String) : Option (Option String × JSValue) :=
  let pathParts := jsSplit source
  resolveParts guideData (pathParts.headD "") pathParts[1]?

/-- Whether a source tag's category lands inside the modelled fragment: its
value on `guideData` is an array, a plain object, or falsy (a falsy
container is never property-accessed thanks to the handler's truthiness
guard).  Truthy non-container values (prototype-inherited functions,
strings, numbers) would be property-accessed through their own prototype
chains, which the embedding does not model. -/
def inFragment (guideData : JSValue) (source : String) : Bool :=
  match jsGet guideData ((jsSplit source).headD "") with
  | .arr _ => true
  | .obj _ => true
  | v => !truthy v

/-- Overwrite-or-append of one object-literal property: assigning to an
existing key keeps its position and replaces its value, a new key is
appended — JavaScript property-creation order. -/
def setField : List (String × JSValue) → String → JSValue → List (String × JSValue)
  | [], k, v => [(k, v)]
  | (k', v') :: rest, k, v =>
    if k' = k then (k, v) :: rest else (k', v') :: setField rest k v

/-- The own enumerable properties spread by `{...guide}`: an object's fields,
an array's or string's indexed elements, and nothing for primitives,
`null`/`undefined` (spreading those is a no-op) and built-in functions
(whose own properties are non-enumerable). -/
def enumFields : JSValue → List (String × JSValue)
  | .obj fields => fields
  | .arr xs => xs.enum.map fun p => (toString p.1, p.2)
  | .str s => s.toList.enum.map fun p => (toString p.1, JSValue.str (String.singleton p.2))
  | _ => []

/-- The value stored under `id`: the uniqueId string, or `undefined` for the
degenerate delimiter-less keyed resolution. -/
def uidVal : Option String → JSValue
  | some s => .str s
  | none => .undefined

/-- The object `{ id: uniqueId, ...guide, score: match.score }` built at
`src/server.js` lines 115–119, with object-literal overwrite semantics:
a spread `id` field of the guide overwrites the initial `id`, and the final
`score` assignment overwrites any spread `score` field. -/
def jsMkResult (uniqueId : Option String) (guide : JSValue) (score : Int) : JSValue :=
  .obj (setField
    ((enumFields guide).foldl (fun acc kv => setField acc kv.1 kv.2) [("id", uidVal uniqueId)])
    "score" (.num score))

/-- One entry of the `retrievedGuides` map: its key (the uniqueId), the
stored result object, and the score of the match that created it.  The score
is carried beside the object because the code's sort comparator reads the
object's `score` property, which the final assignment pins to the match
score (`lookupField_jsMkResult_score`). -/
structure RetrievedGuide where
  uid : Option String
  result : JSValue
  score : Int

/-- One iteration of the retrieval loop (`src/server.js` lines 89–121): an
unresolved match changes nothing; a resolved one is inserted only when its
uniqueId is not yet a key of the map (`Map` preserves insertion order, so
the map is a list extended at the back). -/
def addMatch (guideData : JSValue) (acc : List RetrievedGuide) (m : Match) : List RetrievedGuide :=
  match resolveMatch guideData m.source with
  | none => acc
  | some (uniqueId, guide) =>
    if acc.any fun r => r.uid == uniqueId then acc
    else acc ++ [⟨uniqueId, jsMkResult uniqueId guide m.score, m.score⟩]

/-- The full retrieval loop: the `retrievedGuides` map in insertion order
(first-seen order of uniqueIds). -/
def retrieveGuides (guideData : JSValue) (matchList : List Match) : List RetrievedGuide :=
  matchList.foldl (addMatch guideData) []

/-- Insert one element into a descending-sorted list, before the first
element of not-larger score: the stable placement. -/
def insertDesc (x : RetrievedGuide) : List RetrievedGuide → List RetrievedGuide
  | [] => [x]
  | y :: ys => if y.score > x.score then y :: insertDesc x ys else x :: y :: ys

/-- `results.sort((a, b) => b.score - a.score)`: `Array.prototype.sort` is
stable, so it is modelled as a stable insertion sort, descending by score. -/
def sortDesc : List RetrievedGuide → List RetrievedGuide
  | [] => []
  | x :: xs => insertDesc x (sortDesc xs)

/-- Sort the deduplicated map's values by descending score and truncate:
`results.sort(...).slice(0, 5)` (`src/server.js` lines 123–126). -/
def reconcile (guideData : JSValue) (matchList : List Match) : List RetrievedGuide :=
  (sortDesc (retrieveGuides guideData matchList)).take 5

/-- The JSON array the 200 response carries. -/
def searchResults (guideData : JSValue) (matchList : List Match) : List JSValue :=
  (reconcile guideData matchList).map (·.result)

/-- Own-property lookup on a result object, for stating facts about the
response's fields. -/
def lookupField : JSValue → String → Option JSValue
  | .obj fields, k => lookupKey fields k
  | _, _ => none

/-- JavaScript `typeof`. -/
def jsTypeof : JSValue → String
  | .undefined => "undefined"
  | .bool _ => "boolean"
  | .num _ => "number"
  | .str _ => "string"
  | .func _ => "function"
  | _ => "object"

/-- `String.prototype.trim` on the modelled whitespace fragment. -/
def jsTrim (s : String) : String :=
  ((s.toList.dropWhile Char.isWhitespace).reverse.dropWhile Char.isWhitespace).reverse.asString

/-- The string payload of a string value (only read when `typeof` is
`"string"`, mirroring the short-circuit in the validation condition). -/
def strVal : JSValue → String
  | .str s => s
  | _ => ""

/-- The validation condition of `src/server.js` line 70:
`!query || typeof query !== 'string' || query.trim().length === 0`. -/
def queryInvalid (query : JSValue) : Bool :=
  !truthy query || jsTypeof query != "string" || jsTrim (strVal query) == ""

/-- The three lazily-initialised globals: whether `pinecone` and `pipe` are
set (both are opaque truthy objects once assigned), and the value of
`guideData` (`undefined` until assigned). -/
structure ServerState where
  pinecone : Bool
  pipe : Bool
  guideData : JSValue

/-- The observable outcome of one `/search` request: HTTP status, JSON body,
and whether each external collaborator (embedding pipeline, similarity
index) was called. -/
structure SearchResponse where
  status : Nat
  body : JSValue
  calledPipe : Bool
  calledIndex : Bool

/-- The `/search` handler (`src/server.js` lines 61–127): readiness check,
then validation, then the embedding and index calls and the
retrieval/reconciliation pipeline.  The similarity index's reply is the
`matches` parameter; the `catch` branch (a collaborator throwing, surfaced
as 500) is outside the model. -/
def postSearch (st : ServerState) (query : JSValue) (matchList : List Match) : SearchResponse :=
  if !st.pinecone || !st.pipe || !truthy st.guideData then
    { status := 503
      body := .obj [("error", .str "Server is not ready, please try again later."),
                    ("details", .str (if !truthy st.guideData then "Data not loaded"
                                      else "AI services not initialized"))]
      calledPipe := false
      calledIndex := false }
  else if queryInvalid query then
    { status := 400
      body := .obj [("error", .str "Valid query string is required")]
      calledPipe := false
      calledIndex := false }
  else
    { status := 200
      body := .arr (searchResults st.guideData matchList)
      calledPipe := true
      calledIndex := true }

/-- The environment the startup sequence runs in: the credential
(`PINECONE_API_KEY`, `none` when the variable is unset), the data file
(`none`: missing; `some none`: unparseable JSON; `some (some v)`: parses to
`v`), whether the external transformer pipeline initialises, and
`NODE_ENV`. -/
structure Env where
  apiKey : Option String
  dataFile : Option (Option JSValue)
  pipelineOk : Bool
  nodeEnv : String

/-- What the startup sequence leaves behind: the globals as assigned so far,
and whether the process called `process.exit(1)`. -/
structure InitResult where
  state : ServerState
  exited : Bool

/-- Modelled from the spec: construction of the Similarity Index client (the
`Pinecone` constructor, an external collaborator not under `src/`) fails
exactly when the credential is missing — the spec's taxonomy lists a missing
credential as an InitializationError, and the client validates the key's
presence at construction. -/
def pineconeNew (apiKey : Option String) : Bool := apiKey.isSome

/-- The startup sequence `initialize` (`src/server.js` lines 30–58), step by
step in code order: the placeholder-credential guard, data-file existence,
JSON parsing, the `bmw_z3_guide` root-key extraction (logging its key count
throws when the extracted value is `undefined` or `null`), the index-client
construction, and the pipeline load.  The first failure jumps to the catch
block, which exits the process exactly when `NODE_ENV !== 'production'`,
leaving the globals as assigned so far. -/
def initService (env : Env) : InitResult :=
  let exitOnFail := env.nodeEnv != "production"
  if env.apiKey == some "YOUR_API_KEY" then ⟨⟨false, false, .undefined⟩, exitOnFail⟩
  else
    match env.dataFile with
    | none => ⟨⟨false, false, .undefined⟩, exitOnFail⟩
    | some none => ⟨⟨false, false, .undefined⟩, exitOnFail⟩
    | some (some parsed) =>
      let gd := jsGet parsed "bmw_z3_guide"
      match gd with
      | .undefined => ⟨⟨false, false, .undefined⟩, exitOnFail⟩
      | .null => ⟨⟨false, false, .null⟩, exitOnFail⟩
      | gd =>
        if !pineconeNew env.apiKey then ⟨⟨false, false, gd⟩, exitOnFail⟩
        else if !env.pipelineOk then ⟨⟨true, false, gd⟩, exitOnFail⟩
        else ⟨⟨true, true, gd⟩, false⟩

/-- A canonical non-negative integer: the whole string is a non-empty run
of decimal digits. -/
def decimalNat? (s : String) : Option Nat :=
  let ds := s.toList
  if ds.isEmpty then none
  else if ds.all fun c => (digitVal? 10 c).isSome then
    some (ds.foldl (fun a c => a * 10 + (digitVal? 10 c).getD 0) 0)
  else none

/-- Follows the words of claim C2 and spec §4.1, for comparison with the
code's `resolveMatch`: split into exactly two parts; an unknown category is
unresolvable; an ordered (array) category parses the key-or-index as a
non-negative integer (a canonical digit string), unresolvable when the parse
fails or the index is out of bounds, otherwise the entry at that index with
uniqueId `"<category>-<index>"`; a keyed category looks the key-or-index up
as a key of the mapping, unresolvable when absent, otherwise that entry with
uniqueId equal to the key. -/
def specResolve (root : List (String × JSValue)) (src : String) : Option (String × JSValue) :=
  match jsSplit src with
  | [category, keyOrIndex] =>
    (match lookupKey root category with
     | some (.arr entries) =>
       (match decimalNat? keyOrIndex with
        | some i =>
          if h : i < entries.length then
            some (category ++ "-" ++ toString i, entries.get ⟨i, h⟩)
          else none
        | none => none)
     | some (.obj entries) =>
       (match lookupKey entries keyOrIndex with
        | some e => some (keyOrIndex, e)
        | none => none)
     | _ => none)
  | _ => none

/-- Follows the words of the amended claim C2: for a two-part tag, an array
category applies JavaScript `parseInt` to the key-or-index (unresolvable
when it yields `NaN`) and is unresolvable when the index is negative, out of
bounds, or the entry there is falsy, otherwise that entry with uniqueId
`"<category>-<index>"`; any other truthy category value is property-accessed
(own fields first, then `Object.prototype`), unresolvable when the resulting
value is falsy, otherwise that value with uniqueId equal to the key; an
unknown or falsy category is unresolvable. -/
def amendedResolve (root : List (String × JSValue)) (category keyOrIndex : String) :
    Option (Option String × JSValue) :=
  match lookupKey root category with
  | some (.arr entries) =>
    (match jsParseInt keyOrIndex with
     | none => none
     | some i =>
       if h : 0 ≤ i ∧ i.toNat < entries.length then
         let e := entries.get ⟨i.toNat, h.2⟩
         if truthy e then some (some (category ++ "-" ++ toString i), e) else none
       else none)
  | some v =>
    if truthy v then
      let g := jsGet v keyOrIndex
      if truthy g then some (some keyOrIndex, g) else none
    else none
  | none => none

/-! ## Lemmas about object-literal construction -/

theorem lookupKey_cons (k' : String) (v' : JSValue) (rest : List (String × JSValue)) (k : String) :
    lookupKey ((k', v') :: rest) k = if k' = k then some v' else lookupKey rest k := rfl

theorem setField_cons (k' : String) (v' v : JSValue) (rest : List (String × JSValue)) (k : String) :
    setField ((k', v') :: rest) k v
      = if k' = k then (k, v) :: rest else (k', v') :: setField rest k v := rfl

theorem lookupKey_setField_self (l : List (String × JSValue)) (k : String) (v : JSValue) :
    lookupKey (setField l k v) k = some v := by
  induction l with
  | nil => simp [setField, lookupKey]
  | cons p rest ih =>
    obtain ⟨k', v'⟩ := p
    by_cases h : k' = k
    · simp [setField_cons, h, lookupKey_cons]
    · simp [setField_cons, h, lookupKey_cons, ih]

theorem lookupKey_setField_ne (l : List (String × JSValue)) (k k2 : String) (v : JSValue)
    (hne : k2 ≠ k) : lookupKey (setField l k v) k2 = lookupKey l k2 := by
  have hkk : ¬ k = k2 := fun h => hne h.symm
  induction l with
  | nil => simp [setField, lookupKey, hkk]
  | cons p rest ih =>
    obtain ⟨k', v'⟩ := p
    by_cases h : k' = k
    · subst h
      rw [setField_cons, if_pos rfl, lookupKey_cons, if_neg hkk, lookupKey_cons, if_neg hkk]
    · rw [setField_cons, if_neg h, lookupKey_cons, lookupKey_cons, ih]

theorem lookupKey_eq_none_of_not_mem (l : List (String × JSValue)) (k : String)
    (h : k ∉ l.map Prod.fst) : lookupKey l k = none := by
  induction l with
  | nil => rfl
  | cons p rest ih =>
    obtain ⟨k', v'⟩ := p
    simp only [List.map_cons, List.mem_cons] at h
    push_neg at h
    have hne : ¬ k' = k := fun he => h.1 he.symm
    rw [lookupKey_cons, if_neg hne]
    exact ih h.2

/-- Spreading an association list over a base leaves alone a key the spread
does not carry. -/
theorem spread_none (fields : List (String × JSValue)) (k : String)
    (hk : lookupKey fields k = none) :
    ∀ base, lookupKey (fields.foldl (fun acc kv => setField acc kv.1 kv.2) base) k
      = lookupKey base k := by
  induction fields with
  | nil => intro base; rfl
  | cons p rest ih =>
    obtain ⟨k1, v1⟩ := p
    intro base
    simp only [lookupKey_cons] at hk
    by_cases h : k1 = k
    · simp [h] at hk
    · rw [if_neg h] at hk
      simp only [List.foldl_cons]
      rw [ih hk (setField base k1 v1), lookupKey_setField_ne base k1 k v1 (fun he => h he.symm)]

/-- Spreading an association list with pairwise distinct keys over a base:
a key the spread carries ends with the spread's value. -/
theorem lookupKey_spreadFold_of_some (fields : List (String × JSValue)) (k : String) (v : JSValue)
    (hnd : (fields.map Prod.fst).Nodup) (hk : lookupKey fields k = some v) :
    ∀ base, lookupKey (fields.foldl (fun acc kv => setField acc kv.1 kv.2) base) k = some v := by
  induction fields with
  | nil => simp [lookupKey] at hk
  | cons p rest ih =>
    obtain ⟨k1, v1⟩ := p
    intro base
    simp only [List.map_cons, List.nodup_cons] at hnd
    simp only [lookupKey_cons] at hk
    simp only [List.foldl_cons]
    by_cases h : k1 = k
    · subst h
      rw [if_pos rfl] at hk
      have hv : v1 = v := Option.some.inj hk
      rw [← hv]
      have hrest : lookupKey rest k1 = none :=
        lookupKey_eq_none_of_not_mem rest k1 hnd.1
      rw [spread_none rest k1 hrest (setField base k1 v1)]
      exact lookupKey_setField_self base k1 v1
    · rw [if_neg h] at hk
      exact ih hnd.2 hk (setField base k1 v1)

/-- The `score` property of every built result object is the match score:
the object literal assigns `score` last, overwriting any spread field. -/
theorem lookupField_jsMkResult_score (u : Option String) (g : JSValue) (s : Int) :
    lookupField (jsMkResult u g s) "score" = some (.num s) := by
  unfold jsMkResult lookupField
  exact lookupKey_setField_self _ _ _

/-! ## Lemmas about the stable descending sort -/

theorem mem_insertDesc (x a : RetrievedGuide) (l : List RetrievedGuide) :
    a ∈ insertDesc x l ↔ a = x ∨ a ∈ l := by
  induction l with
  | nil => simp [insertDesc]
  | cons y ys ih =>
    by_cases h : y.score > x.score
    · simp only [insertDesc, if_pos h, List.mem_cons, ih]
      tauto
    · rw [insertDesc, if_neg h]
      simp [List.mem_cons]

theorem pairwise_insertDesc (x : RetrievedGuide) (l : List RetrievedGuide)
    (h : l.Pairwise fun a b => b.score ≤ a.score) :
    (insertDesc x l).Pairwise fun a b => b.score ≤ a.score := by
  induction l with
  | nil => simp [insertDesc]
  | cons y ys ih =>
    rw [List.pairwise_cons] at h
    by_cases hgt : y.score > x.score
    · rw [insertDesc, if_pos hgt, List.pairwise_cons]
      refine ⟨?_, ih h.2⟩
      intro z hz
      rcases (mem_insertDesc x z ys).mp hz with rfl | hz'
      · exact le_of_lt hgt
      · exact h.1 z hz'
    · rw [insertDesc, if_neg hgt, List.pairwise_cons]
      push_neg at hgt
      refine ⟨?_, List.pairwise_cons.mpr h⟩
      intro z hz
      rcases List.mem_cons.mp hz with rfl | hz'
      · exact hgt
      · exact le_trans (h.1 z hz') hgt

theorem pairwise_sortDesc (l : List RetrievedGuide) :
    (sortDesc l).Pairwise fun a b => b.score ≤ a.score := by
  induction l with
  | nil => simp [sortDesc]
  | cons x xs ih => exact pairwise_insertDesc x (sortDesc xs) ih

theorem mem_sortDesc (a : RetrievedGuide) (l : List RetrievedGuide) :
    a ∈ sortDesc l ↔ a ∈ l := by
  induction l with
  | nil => simp [sortDesc]
  | cons x xs ih => rw [sortDesc, mem_insertDesc, ih, List.mem_cons]

/-- Stability of the insertion step, seen through the equal-score filter:
elements skipped over have strictly larger scores, so inserting commutes
with prepending on every equal-score slice. -/
theorem filter_insertDesc (s : Int) (x : RetrievedGuide) (l : List RetrievedGuide) :
    (insertDesc x l).filter (fun r => r.score == s)
      = ((x :: l).filter fun r => r.score == s) := by
  have fpos : ∀ (a : RetrievedGuide) (t : List RetrievedGuide), a.score = s →
      List.filter (fun r => r.score == s) (a :: t)
        = a :: List.filter (fun r => r.score == s) t := by
    intro a t ha
    simp [List.filter_cons, ha]
  have fneg : ∀ (a : RetrievedGuide) (t : List RetrievedGuide), a.score ≠ s →
      List.filter (fun r => r.score == s) (a :: t)
        = List.filter (fun r => r.score == s) t := by
    intro a t ha
    simp [List.filter_cons, ha]
  induction l with
  | nil => rfl
  | cons y ys ih =>
    by_cases hgt : y.score > x.score
    · rw [insertDesc, if_pos hgt]
      by_cases hx : x.score = s
      · have hy : y.score ≠ s := by omega
        rw [fneg y (insertDesc x ys) hy, ih, fpos x ys hx, fpos x (y :: ys) hx,
            fneg y ys hy]
      · rw [fneg x (y :: ys) hx, List.filter_cons, List.filter_cons, ih, fneg x ys hx]
    · rw [insertDesc, if_neg hgt]

/-- Stability of the whole sort: every equal-score slice of the sorted list
is exactly that slice of the input, in input (first-seen) order. -/
theorem filter_sortDesc (s : Int) (l : List RetrievedGuide) :
    (sortDesc l).filter (fun r => r.score == s) = l.filter fun r => r.score == s := by
  induction l with
  | nil => rfl
  | cons x xs ih =>
    rw [sortDesc, filter_insertDesc, List.filter_cons, List.filter_cons, ih]

/-! ## Lemmas about the retrieval loop -/

/-- A property of map entries preserved by every iteration of the loop is a
property of the whole map. -/
theorem foldl_addMatch_invariant (P : RetrievedGuide → Prop) (gd : JSValue)
    (hnew : ∀ u g s, P ⟨u, jsMkResult u g s, s⟩) :
    ∀ (ml : List Match) (acc : List RetrievedGuide), (∀ e ∈ acc, P e) →
      ∀ e ∈ ml.foldl (addMatch gd) acc, P e := by
  intro ml
  induction ml with
  | nil => intro acc hacc; exact hacc
  | cons m rest ih =>
    intro acc hacc
    rw [List.foldl_cons]
    refine ih (addMatch gd acc m) ?_
    intro e he
    unfold addMatch at he
    rcases hres : resolveMatch gd m.source with _ | ⟨u, g⟩
    · rw [hres] at he
      exact hacc e he
    · rw [hres] at he
      dsimp only at he
      by_cases hdup : (acc.any fun r => r.uid == u) = true
      · rw [if_pos hdup] at he
        exact hacc e he
      · rw [if_neg hdup] at he
        rcases List.mem_append.mp he with h | h
        · exact hacc e h
        · rcases List.mem_singleton.mp h with rfl
          exact hnew u g m.score

/-- Every entry of the deduplicated map carries its match score in the
stored object's `score` property. -/
theorem retrieveGuides_score_field (gd : JSValue) (ml : List Match) :
    ∀ e ∈ retrieveGuides gd ml, lookupField e.result "score" = some (.num e.score) := by
  refine foldl_addMatch_invariant _ gd ?_ ml [] (by simp)
  intro u g s
  exact lookupField_jsMkResult_score u g s

/-- Claim C3: for every query, the response array returned by the search
endpoint has length at most 5 — every `/search` body that is a JSON array
(the 200 branch) has at most 5 elements, by the `slice(0, 5)` truncation. -/
theorem search_response_at_most_five (st : ServerState) (q : JSValue) (ml : List Match)
    (l : List JSValue) (h : (postSearch st q ml).body = .arr l) : l.length ≤ 5 := by
  unfold postSearch at h
  by_cases h1 : !st.pinecone || !st.pipe || !truthy st.guideData
  · rw [if_pos h1] at h
    exact absurd h (by simp)
  · rw [if_neg h1] at h
    by_cases h2 : queryInvalid q
    · rw [if_pos h2] at h
      exact absurd h (by simp)
    · rw [if_neg h2] at h
      have hl : l = searchResults st.guideData ml := (JSValue.arr.inj h).symm
      subst hl
      unfold searchResults reconcile
      rw [List.length_map, List.length_take]
      exact Nat.min_le_left 5 _

/-- Witness for C3 at a concrete ready state, valid query and empty match
list. -/
theorem search_response_at_most_five_witness : ([] : List JSValue).length ≤ 5 :=
  search_response_at_most_five ⟨true, true, .obj [("A", .arr [])]⟩ (.str "hi") [] [] rfl

/-- Claim C4: in every response the scores are non-increasing by position,
and results of equal score appear in the order their uniqueId was first
seen in the match list — `retrieveGuides` is the map in first-seen order,
the sort is stable (every equal-score slice of the truncated, sorted result
is a sublist of the same slice of the first-seen order), and each result
object's `score` property equals its carried score. -/
theorem search_response_sorted_stable (gd : JSValue) (ml : List Match) :
    ((reconcile gd ml).Pairwise fun a b => b.score ≤ a.score)
    ∧ (∀ s : Int, ((reconcile gd ml).filter fun r => r.score == s).Sublist
        ((retrieveGuides gd ml).filter fun r => r.score == s))
    ∧ ∀ e ∈ reconcile gd ml, lookupField e.result "score" = some (.num e.score) := by
  refine ⟨?_, ?_, ?_⟩
  · exact List.Pairwise.sublist (List.take_sublist 5 _) (pairwise_sortDesc (retrieveGuides gd ml))
  · intro s
    have h1 : ((reconcile gd ml).filter fun r => r.score == s).Sublist
        ((sortDesc (retrieveGuides gd ml)).filter fun r => r.score == s) :=
      (List.take_sublist 5 _).filter _
    rw [filter_sortDesc] at h1
    exact h1
  · intro e he
    have h1 : e ∈ sortDesc (retrieveGuides gd ml) :=
      (List.take_sublist 5 _).subset he
    exact retrieveGuides_score_field gd ml e ((mem_sortDesc e _).mp h1)

/-- Claim C6: a request whose `query` field is absent, not a string, or
empty/whitespace-only after trimming is answered 400 with
`{error: "Valid query string is required"}`, and neither the embedding
pipeline nor the similarity index is called (on a ready server — an
uninitialised server answers 503 before validation, claim C7). -/
theorem invalid_query_rejected (st : ServerState) (q : JSValue) (ml : List Match)
    (hready : st.pinecone = true ∧ st.pipe = true ∧ truthy st.guideData = true)
    (hq : q = JSValue.undefined ∨ jsTypeof q ≠ "string"
      ∨ ∃ s, q = JSValue.str s ∧ jsTrim s = "") :
    postSearch st q ml
      = ⟨400, .obj [("error", .str "Valid query string is required")], false, false⟩ := by
  have hg : (!st.pinecone || !st.pipe || !truthy st.guideData) = false := by
    rw [hready.1, hready.2.1, hready.2.2]
    rfl
  have hinv : queryInvalid q = true := by
    rcases hq with rfl | h | ⟨s, rfl, hs⟩
    · rfl
    · unfold queryInvalid
      rw [bne_iff_ne.mpr h]
      simp
    · unfold queryInvalid
      by_cases hse : s = ""
      · subst hse
        rfl
      · simp [truthy, jsTypeof, strVal, hs, hse]
  unfold postSearch
  rw [hg, hinv]
  simp

/-- Witness for C6: a whitespace-only query on a ready server. -/
theorem invalid_query_rejected_witness :
    postSearch ⟨true, true, .obj [("Engine", .arr [])]⟩ (.str "   ") []
      = ⟨400, .obj [("error", .str "Valid query string is required")], false, false⟩ :=
  invalid_query_rejected _ _ _ ⟨rfl, rfl, rfl⟩ (Or.inr (Or.inr ⟨"   ", rfl, rfl⟩))

/-- Claim C7: when the credential is missing or the data file is missing or
invalid, initialisation fails (neither client global gets set); the failure
exits the process in development and is non-fatal in production, where every
subsequent `/search` request is answered 503. -/
theorem init_failure_handling (env : Env)
    (hfail : env.apiKey = none ∨ env.dataFile = none ∨ env.dataFile = some none) :
    ((initService env).state.pinecone = false ∧ (initService env).state.pipe = false)
    ∧ (env.nodeEnv = "development" → (initService env).exited = true)
    ∧ (env.nodeEnv = "production" → (initService env).exited = false
        ∧ ∀ q ml, (postSearch (initService env).state q ml).status = 503) := by
  obtain ⟨key, df, pok, ne⟩ := env
  have h503 : ∀ (gd : JSValue) (q : JSValue) (ml : List Match),
      (postSearch ⟨false, false, gd⟩ q ml).status = 503 := by
    intro gd q ml
    rfl
  suffices h : ∃ gd, initService ⟨key, df, pok, ne⟩
      = ⟨⟨false, false, gd⟩, ne != "production"⟩ by
    obtain ⟨gd, hgd⟩ := h
    rw [hgd]
    refine ⟨⟨rfl, rfl⟩, ?_, ?_⟩
    · intro hdev
      simp only at hdev
      subst hdev
      rfl
    · intro hprod
      simp only at hprod
      subst hprod
      exact ⟨rfl, fun q ml => h503 gd q ml⟩
  simp only at hfail
  rcases hfail with hk | hd | hd
  · subst hk
    rcases df with _ | df2
    · exact ⟨.undefined, rfl⟩
    · rcases df2 with _ | parsed
      · exact ⟨.undefined, rfl⟩
      · unfold initService
        simp only
        rcases hgd : jsGet parsed "bmw_z3_guide" with _ | _ | b | n | s | xs | fs | f | _
        all_goals exact ⟨_, rfl⟩
  · subst hd
    by_cases hbk : (key == some "YOUR_API_KEY") = true
    · refine ⟨.undefined, ?_⟩
      unfold initService
      rw [if_pos hbk]
    · refine ⟨.undefined, ?_⟩
      unfold initService
      rw [if_neg hbk]
  · subst hd
    by_cases hbk : (key == some "YOUR_API_KEY") = true
    · refine ⟨.undefined, ?_⟩
      unfold initService
      rw [if_pos hbk]
    · refine ⟨.undefined, ?_⟩
      unfold initService
      rw [if_neg hbk]

/-! ## Lemmas about path resolution -/

theorem lookupKey_mem_values (l : List (String × JSValue)) (k : String) (v : JSValue)
    (h : lookupKey l k = some v) : v ∈ l.map Prod.snd := by
  induction l with
  | nil => simp [lookupKey] at h
  | cons p rest ih =>
    obtain ⟨k1, v1⟩ := p
    rw [lookupKey_cons] at h
    by_cases hk : k1 = k
    · rw [if_pos hk] at h
      simp [Option.some.inj h]
    · rw [if_neg hk] at h
      simp [ih h]

/-- Every value inherited from `Object.prototype` is truthy and is neither
an array nor a plain object. -/
theorem objectProtoGet_shape (k : String) (v : JSValue) (h : objectProtoGet k = some v) :
    truthy v = true ∧ (∀ xs, v ≠ .arr xs) ∧ ∀ fs, v ≠ .obj fs := by
  have hv := lookupKey_mem_values _ _ _ h
  simp only [protoProps, List.map_cons, List.map_nil, List.mem_cons, List.not_mem_nil,
    or_false] at hv
  rcases hv with rfl | rfl | rfl | rfl | rfl | rfl | rfl | rfl | rfl | rfl | rfl | rfl
  all_goals exact ⟨rfl, by simp, by simp⟩

/-- Every value inherited from `Object.prototype` is a built-in function or
`Object.prototype` itself. -/
theorem objectProtoGet_cases (k : String) (v : JSValue) (h : objectProtoGet k = some v) :
    v = .protoObj ∨ ∃ nm, v = .func nm := by
  have hv := lookupKey_mem_values _ _ _ h
  simp only [protoProps, List.map_cons, List.map_nil, List.mem_cons, List.not_mem_nil,
    or_false] at hv
  rcases hv with rfl | rfl | rfl | rfl | rfl | rfl | rfl | rfl | rfl | rfl | rfl | rfl
  all_goals first
    | exact Or.inl rfl
    | exact Or.inr ⟨_, rfl⟩

theorem jsGet_obj (fields : List (String × JSValue)) (k : String) :
    jsGet (.obj fields) k
      = match lookupKey fields k with
        | some v => v
        | none => (objectProtoGet k).getD .undefined := rfl

/-- Resolution of a tag whose split yields exactly two parts. -/
theorem resolveMatch_split (gd : JSValue) (src c k : String)
    (hsplit : jsSplit src = [c, k]) :
    resolveMatch gd src = resolveParts gd c (some k) := by
  unfold resolveMatch
  rw [hsplit]
  rfl

/-- Resolution against an array category reduces to the `parseInt` indexing
branch. -/
theorem resolveParts_arr (gd : JSValue) (c : String) (k? : Option String)
    (xs : List JSValue) (h : jsGet gd c = .arr xs) :
    resolveParts gd c k?
      = (match jsParseInt (k?.getD "undefined") with
         | none => none
         | some i =>
           if truthy (arrGet xs i) then
             some (some (c ++ "-" ++ toString i), arrGet xs i)
           else none) := by
  unfold resolveParts
  rw [h]
  rfl

/-- Resolution against a truthy non-array category reduces to the keyed
property-access branch. -/
theorem resolveParts_keyed (gd : JSValue) (c : String) (k? : Option String)
    (v : JSValue) (h : jsGet gd c = v) (harr : ∀ xs, v ≠ .arr xs)
    (htrue : truthy v = true) :
    resolveParts gd c k?
      = (if truthy (jsGet v (k?.getD "undefined")) then
          some (k?, jsGet v (k?.getD "undefined"))
        else none) := by
  unfold resolveParts
  rw [h]
  rcases v with _ | _ | b | n | s | xs | fs | f | _
  · exact absurd htrue (by decide)
  · exact absurd htrue (by decide)
  · rw [if_pos htrue]
  · rw [if_pos htrue]
  · rw [if_pos htrue]
  · exact absurd rfl (harr xs)
  · rw [if_pos htrue]
  · rw [if_pos htrue]
  · rw [if_pos htrue]

/-- Resolution against a falsy category value misses: the handler's
truthiness guard rejects it before any access. -/
theorem resolveParts_falsy (gd : JSValue) (c : String) (k? : Option String)
    (v : JSValue) (h : jsGet gd c = v) (hfalse : truthy v = false) :
    resolveParts gd c k? = none := by
  unfold resolveParts
  rw [h]
  show (if truthy v = true then _ else none) = none
  rw [hfalse]
  rfl

/-- Claim C9: on a keyed (non-array) category, key lookup is unrestricted
property access, so a key that is absent from the category mapping but
names an inherited `Object.prototype` property (such as `"constructor"`) is
treated as present: the match resolves to the inherited value, with the key
as its uniqueId, instead of being reported unresolvable. -/
theorem proto_key_resolves (root fields : List (String × JSValue)) (src c k : String)
    (v : JSValue) (hsplit : jsSplit src = [c, k])
    (hcat : lookupKey root c = some (.obj fields))
    (hown : lookupKey fields k = none)
    (hproto : objectProtoGet k = some v) :
    resolveMatch (.obj root) src = some (some k, v) := by
  obtain ⟨htr, -, -⟩ := objectProtoGet_shape k v hproto
  have hjs : jsGet (.obj root) c = .obj fields := by rw [jsGet_obj, hcat]
  have hkv : jsGet (.obj fields) k = v := by
    rw [jsGet_obj, hown, hproto]
    rfl
  rw [resolveMatch_split _ _ _ _ hsplit,
    resolveParts_keyed (.obj root) c (some k) (.obj fields) hjs (by simp) rfl,
    Option.getD_some, hkv, if_pos htr]

/-- Claim C10: an entry that is present at a valid index of an ordered
category, or at a present key of a keyed category, but whose value is falsy
(`null`, `false`, `0`, `""`) is unresolvable — exactly as an out-of-bounds
index or an absent key — because the handler tests presence by truthiness. -/
theorem falsy_entry_unresolvable (root : List (String × JSValue)) :
    (∀ (src c k : String) (xs : List JSValue) (i : Int),
        jsSplit src = [c, k] → lookupKey root c = some (.arr xs) →
        jsParseInt k = some i → ∀ (hi : 0 ≤ i) (hlen : i.toNat < xs.length),
        truthy (xs.get ⟨i.toNat, hlen⟩) = false →
        resolveMatch (.obj root) src = none)
    ∧ (∀ (src c k : String) (fields : List (String × JSValue)) (e : JSValue),
        jsSplit src = [c, k] → lookupKey root c = some (.obj fields) →
        lookupKey fields k = some e → truthy e = false →
        resolveMatch (.obj root) src = none) := by
  constructor
  · intro src c k xs i hsplit hcat hparse hi hlen hfalsy
    have hjs : jsGet (.obj root) c = .arr xs := by rw [jsGet_obj, hcat]
    have harr : arrGet xs i = xs.get ⟨i.toNat, hlen⟩ := by
      unfold arrGet
      rw [dif_pos ⟨hi, hlen⟩]
    rw [resolveMatch_split _ _ _ _ hsplit, resolveParts_arr (.obj root) c (some k) xs hjs,
      Option.getD_some, hparse]
    dsimp only
    rw [harr, hfalsy]
    rfl
  · intro src c k fields e hsplit hcat hown hfalsy
    have hjs : jsGet (.obj root) c = .obj fields := by rw [jsGet_obj, hcat]
    have hkv : jsGet (.obj fields) k = e := by rw [jsGet_obj, hown]
    rw [resolveMatch_split _ _ _ _ hsplit,
      resolveParts_keyed (.obj root) c (some k) (.obj fields) hjs (by simp) rfl,
      Option.getD_some, hkv, hfalsy]
    rfl

/-- Witness for C10: a `null` entry at a valid array index and a `false`
entry at a present key are both dropped. -/
theorem falsy_entry_unresolvable_witness :
    resolveMatch (.obj [("A", .arr [.null]), ("B", .obj [("k", .bool false)])]) "A > 0" = none
    ∧ resolveMatch (.obj [("A", .arr [.null]), ("B", .obj [("k", .bool false)])]) "B > k"
        = none := by
  constructor
  · exact (falsy_entry_unresolvable [("A", .arr [.null]), ("B", .obj [("k", .bool false)])]).1
      "A > 0" "A" "0" [.null] 0 rfl rfl rfl (by decide) (by decide) rfl
  · exact (falsy_entry_unresolvable [("A", .arr [.null]), ("B", .obj [("k", .bool false)])]).2
      "B > k" "B" "k" [("k", .bool false)] (.bool false) rfl rfl rfl rfl

/-- Claim C2 (corrected), counterexample: against an ordered category of
length 3, the key-or-index `"2abc"` is no non-negative integer — the claim
as stated (and `specResolve`, its word-for-word rendering) calls the tag
unresolvable — yet the code's `parseInt` reads the leading digits and the
tag resolves to index 2 with uniqueId `"Engine-2"`. -/
theorem resolve_spec_counterexample :
    resolveMatch
        (.obj [("Engine", .arr [.obj [("t", .str "a")], .obj [("t", .str "b")],
          .obj [("t", .str "c")]])])
        "Engine > 2abc"
      = some (some "Engine-2", .obj [("t", .str "c")])
    ∧ specResolve
        [("Engine", .arr [.obj [("t", .str "a")], .obj [("t", .str "b")],
          .obj [("t", .str "c")]])]
        "Engine > 2abc"
      = none :=
  ⟨rfl, rfl⟩

/-- Claim C2 (amended): for every two-part sourceTag whose category stays in
the modelled fragment, resolution behaves as `amendedResolve` describes —
an array category indexes by JavaScript `parseInt` semantics (longest digit
prefix, optional sign and `0x` prefix; `NaN`, negative, out-of-bounds, and
falsy entries unresolvable) with uniqueId `"<category>-<index>"`, and any
other truthy category value is property-accessed (own key first, then
`Object.prototype`), falsy results unresolvable, with uniqueId the key. -/
theorem resolve_follows_amended_spec (root : List (String × JSValue)) (src c k : String)
    (hsplit : jsSplit src = [c, k]) (hfrag : inFragment (.obj root) src = true) :
    resolveMatch (.obj root) src = amendedResolve root c k := by
  rw [resolveMatch_split _ _ _ _ hsplit]
  have hfrag' : (match jsGet (.obj root) c with
      | .arr _ => true
      | .obj _ => true
      | v => !truthy v) = true := by
    unfold inFragment at hfrag
    rw [hsplit] at hfrag
    exact hfrag
  rcases hl : lookupKey root c with _ | v
  · have hjs : jsGet (.obj root) c = (objectProtoGet c).getD .undefined := by
      rw [jsGet_obj, hl]
    rcases hp : objectProtoGet c with _ | w
    · have hjs2 : jsGet (.obj root) c = .undefined := by
        rw [hjs, hp]
        rfl
      rw [resolveParts_falsy _ _ _ _ hjs2 rfl]
      unfold amendedResolve
      rw [hl]
    · have hjs2 : jsGet (.obj root) c = w := by
        rw [hjs, hp]
        rfl
      rw [hjs2] at hfrag'
      rcases objectProtoGet_cases c w hp with rfl | ⟨nm, rfl⟩
      · simp [truthy] at hfrag'
      · simp [truthy] at hfrag'
  · have hjs : jsGet (.obj root) c = v := by
      rw [jsGet_obj, hl]
    rcases v with _ | _ | b | n | s | xs | fs | f | _
    case arr =>
      rw [resolveParts_arr _ _ _ xs hjs, Option.getD_some]
      unfold amendedResolve
      rw [hl]
      rcases hpi : jsParseInt k with _ | i
      · rfl
      · dsimp only
        by_cases hb : 0 ≤ i ∧ i.toNat < xs.length
        · have harr : arrGet xs i = xs.get ⟨i.toNat, hb.2⟩ := by
            unfold arrGet
            rw [dif_pos hb]
          rw [harr, dif_pos hb]
        · have harr : arrGet xs i = .undefined := by
            unfold arrGet
            rw [dif_neg hb]
          rw [harr, dif_neg hb]
          rfl
    case obj =>
      rw [resolveParts_keyed _ _ _ (.obj fs) hjs (by simp) rfl, Option.getD_some]
      unfold amendedResolve
      rw [hl]
      rfl
    case undefined =>
      rw [resolveParts_falsy _ _ _ _ hjs rfl]
      unfold amendedResolve
      rw [hl]
      rfl
    case null =>
      rw [resolveParts_falsy _ _ _ _ hjs rfl]
      unfold amendedResolve
      rw [hl]
      rfl
    case bool =>
      cases b with
      | true =>
        rw [hjs] at hfrag'
        exact absurd hfrag' (by decide)
      | false =>
        rw [resolveParts_falsy _ _ _ _ hjs rfl]
        unfold amendedResolve
        rw [hl]
        rfl
    case num =>
      by_cases hn : n = 0
      · subst hn
        rw [resolveParts_falsy _ _ _ _ hjs rfl]
        unfold amendedResolve
        rw [hl]
        rfl
      · rw [hjs] at hfrag'
        dsimp only [truthy] at hfrag'
        rw [bne_iff_ne.mpr hn] at hfrag'
        exact absurd hfrag' (by decide)
    case str =>
      by_cases hs : s = ""
      · subst hs
        rw [resolveParts_falsy _ _ _ _ hjs rfl]
        unfold amendedResolve
        rw [hl]
        rfl
      · rw [hjs] at hfrag'
        dsimp only [truthy] at hfrag'
        rw [bne_iff_ne.mpr hs] at hfrag'
        exact absurd hfrag' (by decide)
    case func =>
      rw [hjs] at hfrag'
      simp [truthy] at hfrag'
    case protoObj =>
      rw [hjs] at hfrag'
      simp [truthy] at hfrag'

/-- Witness for C2 (amended): the in-spec example tag `"Engine > 2"`
against an ordered category of length 3. -/
theorem resolve_follows_amended_spec_witness :
    resolveMatch
        (.obj [("Engine", .arr [.obj [("t", .str "a")], .obj [("t", .str "b")],
          .obj [("t", .str "c")]])])
        "Engine > 2"
      = amendedResolve
          [("Engine", .arr [.obj [("t", .str "a")], .obj [("t", .str "b")],
            .obj [("t", .str "c")]])]
          "Engine" "2" :=
  resolve_follows_amended_spec
    [("Engine", .arr [.obj [("t", .str "a")], .obj [("t", .str "b")],
      .obj [("t", .str "c")]])]
    "Engine > 2" "Engine" "2" rfl rfl

/-- Witness for C9: the key `"constructor"`, absent from the keyed category
`"Cat"`, resolves to the inherited `Object` constructor. -/
theorem proto_key_resolves_witness :
    resolveMatch (.obj [("Cat", .obj [("a", .obj [("x", .str "y")])])]) "Cat > constructor"
      = some (some "constructor", .func "Object") :=
  proto_key_resolves [("Cat", .obj [("a", .obj [("x", .str "y")])])]
    [("a", .obj [("x", .str "y")])] "Cat > constructor" "Cat" "constructor"
    (.func "Object") rfl rfl rfl rfl

/-! ## Lemmas about the deduplicating retrieval loop -/

theorem addMatch_none (gd : JSValue) (m : Match)
    (h : resolveMatch gd m.source = none) (acc : List RetrievedGuide) :
    addMatch gd acc m = acc := by
  unfold addMatch
  rw [h]

/-- Entries of `acc` survive one iteration of the loop. -/
theorem mem_addMatch_of_mem (gd : JSValue) (m : Match) (acc : List RetrievedGuide)
    (r : RetrievedGuide) (hr : r ∈ acc) : r ∈ addMatch gd acc m := by
  unfold addMatch
  rcases resolveMatch gd m.source with _ | ⟨u, g⟩
  · exact hr
  · dsimp only
    by_cases hdup : (acc.any fun r => r.uid == u) = true
    · rw [if_pos hdup]
      exact hr
    · rw [if_neg hdup]
      exact List.mem_append_left _ hr

/-- After a match resolving to `u` is processed, some map entry has uid
`u` (the dedup test or the fresh insertion guarantees it). -/
theorem uid_present_after (gd : JSValue) (acc : List RetrievedGuide) (m : Match)
    (u : Option String) (g : JSValue) (h : resolveMatch gd m.source = some (u, g)) :
    ∃ r ∈ addMatch gd acc m, r.uid = u := by
  unfold addMatch
  rw [h]
  dsimp only
  by_cases hdup : (acc.any fun r => r.uid == u) = true
  · rw [if_pos hdup]
    obtain ⟨r, hr, hru⟩ := List.any_eq_true.mp hdup
    exact ⟨r, hr, beq_iff_eq.mp hru⟩
  · rw [if_neg hdup]
    exact ⟨⟨u, jsMkResult u g m.score, m.score⟩,
      List.mem_append_right _ (List.mem_singleton.mpr rfl), rfl⟩

/-- Provenance: an entry of the folded map either was already in the
accumulator, or was created by some match of the list that resolved to its
uid — in which case no accumulator entry had that uid. -/
theorem mem_foldl_addMatch (gd : JSValue) (ml : List Match) :
    ∀ (acc : List RetrievedGuide) (e : RetrievedGuide), e ∈ ml.foldl (addMatch gd) acc →
      e ∈ acc
      ∨ ((∃ m g, m ∈ ml ∧ resolveMatch gd m.source = some (e.uid, g)
            ∧ e.result = jsMkResult e.uid g m.score ∧ e.score = m.score)
          ∧ ∀ r ∈ acc, r.uid ≠ e.uid) := by
  induction ml with
  | nil =>
    intro acc e he
    exact Or.inl he
  | cons m rest ih =>
    intro acc e he
    rw [List.foldl_cons] at he
    rcases ih (addMatch gd acc m) e he with hin | ⟨⟨m1, g1, hm1, hres1, hr1, hs1⟩, hfresh⟩
    · unfold addMatch at hin
      rcases hres : resolveMatch gd m.source with _ | ⟨u, g⟩
      · rw [hres] at hin
        exact Or.inl hin
      · rw [hres] at hin
        dsimp only at hin
        by_cases hdup : (acc.any fun r => r.uid == u) = true
        · rw [if_pos hdup] at hin
          exact Or.inl hin
        · rw [if_neg hdup] at hin
          rcases List.mem_append.mp hin with h1 | h1
          · exact Or.inl h1
          · rcases List.mem_singleton.mp h1 with rfl
            refine Or.inr ⟨⟨m, g, List.mem_cons_self m rest, hres, rfl, rfl⟩, ?_⟩
            intro r hr hru
            exact hdup (List.any_eq_true.mpr ⟨r, hr, beq_iff_eq.mpr hru⟩)
    · refine Or.inr ⟨⟨m1, g1, List.mem_cons_of_mem m hm1, hres1, hr1, hs1⟩, ?_⟩
      intro r hr
      exact hfresh r (mem_addMatch_of_mem gd m acc r hr)

/-- Every map entry was created by some match of the list, with that
match's score and result object. -/
theorem retrieve_provenance (gd : JSValue) (ml : List Match) :
    ∀ e ∈ retrieveGuides gd ml, ∃ m g, m ∈ ml
      ∧ resolveMatch gd m.source = some (e.uid, g)
      ∧ e.result = jsMkResult e.uid g m.score ∧ e.score = m.score := by
  intro e he
  rcases mem_foldl_addMatch gd ml [] e he with hin | ⟨hprov, _⟩
  · exact absurd hin (List.not_mem_nil e)
  · exact hprov

/-- When no match of the list resolves, the folded map is the
accumulator. -/
theorem foldl_addMatch_all_none (gd : JSValue) (ml : List Match)
    (h : ∀ x ∈ ml, resolveMatch gd x.source = none) :
    ∀ acc, ml.foldl (addMatch gd) acc = acc := by
  induction ml with
  | nil =>
    intro acc
    rfl
  | cons m rest ih =>
    intro acc
    rw [List.foldl_cons, addMatch_none gd m (h m (List.mem_cons_self m rest)) acc]
    exact ih (fun x hx => h x (List.mem_cons_of_mem m hx)) acc

/-- First-occurrence-wins equals highest-score-wins on a score-sorted match
list: the kept score of every map entry dominates the score of every match
of the list resolving to the same uid. -/
theorem retrieve_max_score (gd : JSValue) :
    ∀ (ml : List Match) (acc : List RetrievedGuide),
      ml.Pairwise (fun a b => b.score ≤ a.score) →
      (∀ e ∈ acc, ∀ m ∈ ml, ∀ g, resolveMatch gd m.source = some (e.uid, g)
        → m.score ≤ e.score) →
      ∀ e ∈ ml.foldl (addMatch gd) acc, ∀ m ∈ ml, ∀ g,
        resolveMatch gd m.source = some (e.uid, g) → m.score ≤ e.score := by
  intro ml
  induction ml with
  | nil =>
    intro acc _ _ e _ m hm
    exact absurd hm (List.not_mem_nil m)
  | cons m0 rest ih =>
    intro acc hsort hacc e he m hm g hres
    rw [List.foldl_cons] at he
    rw [List.pairwise_cons] at hsort
    have hacc' : ∀ e1 ∈ addMatch gd acc m0, ∀ m1 ∈ rest, ∀ g1,
        resolveMatch gd m1.source = some (e1.uid, g1) → m1.score ≤ e1.score := by
      intro e1 he1 m1 hm1 g1 hres1
      unfold addMatch at he1
      rcases hres0 : resolveMatch gd m0.source with _ | ⟨u0, g0⟩
      · rw [hres0] at he1
        exact hacc e1 he1 m1 (List.mem_cons_of_mem m0 hm1) g1 hres1
      · rw [hres0] at he1
        dsimp only at he1
        by_cases hdup : (acc.any fun r => r.uid == u0) = true
        · rw [if_pos hdup] at he1
          exact hacc e1 he1 m1 (List.mem_cons_of_mem m0 hm1) g1 hres1
        · rw [if_neg hdup] at he1
          rcases List.mem_append.mp he1 with h1 | h1
          · exact hacc e1 h1 m1 (List.mem_cons_of_mem m0 hm1) g1 hres1
          · rcases List.mem_singleton.mp h1 with rfl
            exact hsort.1 m1 hm1
    rcases List.mem_cons.mp hm with rfl | hmr
    · obtain ⟨r0, hr0, hru0⟩ := uid_present_after gd acc m e.uid g hres
      rcases mem_foldl_addMatch gd rest (addMatch gd acc m) e he with hin | ⟨_, hfresh⟩
      · unfold addMatch at hin
        rw [hres] at hin
        dsimp only at hin
        by_cases hdup : (acc.any fun r => r.uid == e.uid) = true
        · rw [if_pos hdup] at hin
          exact hacc e hin m (List.mem_cons_self m rest) g hres
        · rw [if_neg hdup] at hin
          rcases List.mem_append.mp hin with h1 | h1
          · exact hacc e h1 m (List.mem_cons_self m rest) g hres
          · have he2 := List.mem_singleton.mp h1
            rw [he2]
      · exact absurd hru0 (hfresh r0 hr0)
    · exact ih (addMatch gd acc m0) hsort.2 hacc' e he m hmr g hres
theorem init_failure_handling_witness :
    ((initService ⟨none, none, true, "production"⟩).state.pinecone = false
      ∧ (initService ⟨none, none, true, "production"⟩).state.pipe = false)
    ∧ ((⟨none, none, true, "production"⟩ : Env).nodeEnv = "development"
        → (initService ⟨none, none, true, "production"⟩).exited = true)
    ∧ ((⟨none, none, true, "production"⟩ : Env).nodeEnv = "production"
        → (initService ⟨none, none, true, "production"⟩).exited = false
          ∧ ∀ q ml,
              (postSearch (initService ⟨none, none, true, "production"⟩).state q ml).status
                = 503) :=
  init_failure_handling ⟨none, none, true, "production"⟩ (Or.inl rfl)

/-- Claim C1 (corrected), counterexample: two matches resolve to the same
uniqueId `"k"` but arrive in ascending score order; the code keeps the
first (score 1), not the highest-scoring (score 5) — the descending sort
runs only after deduplication and cannot restore the discarded score, so
"highest score wins regardless of input order" fails. -/
theorem dedup_highest_score_counterexample :
    (Match.mk "Cat > k" 5) ∈ ([⟨"Cat > k", 1⟩, ⟨"Cat > k", 5⟩] : List Match)
    ∧ resolveMatch (.obj [("Cat", .obj [("k", .obj [("title", .str "t")])])]) "Cat > k"
        = some (some "k", .obj [("title", .str "t")])
    ∧ searchResults (.obj [("Cat", .obj [("k", .obj [("title", .str "t")])])])
        [⟨"Cat > k", 1⟩, ⟨"Cat > k", 5⟩]
      = [.obj [("id", .str "k"), ("title", .str "t"), ("score", .num 1)]]
    ∧ (1 : Int) < 5 :=
  ⟨by decide, rfl, rfl, by decide⟩

/-- Claim C1 (amended): the first match in input order that resolves to a
uniqueId wins, and when the match list is sorted by non-increasing score
(the similarity index's contract) this equals highest-score-wins: each
entry of the deduplicated map (of which the response is the sorted, 5-long
truncation) carries the score of some match resolving to its uid, and no
match of the list resolving to that uid scores higher. -/
theorem dedup_keeps_max_score (gd : JSValue) (ml : List Match)
    (hfrag : ∀ m ∈ ml, inFragment gd m.source = true)
    (hsort : ml.Pairwise fun a b => b.score ≤ a.score) :
    (∀ e ∈ reconcile gd ml, e ∈ retrieveGuides gd ml)
    ∧ ∀ e ∈ retrieveGuides gd ml,
        (∃ m g, m ∈ ml ∧ resolveMatch gd m.source = some (e.uid, g) ∧ e.score = m.score)
        ∧ ∀ m ∈ ml, ∀ g, resolveMatch gd m.source = some (e.uid, g) → m.score ≤ e.score := by
  constructor
  · intro e he
    exact (mem_sortDesc e _).mp ((List.take_sublist 5 _).subset he)
  · intro e he
    constructor
    · obtain ⟨m, g, hm, hres, _, hs⟩ := retrieve_provenance gd ml e he
      exact ⟨m, g, hm, hres, hs⟩
    · exact retrieve_max_score gd ml [] hsort (by simp) e he

/-- Witness for C1 (amended) at a descending two-match list resolving to
two distinct uniqueIds. -/
theorem dedup_keeps_max_score_witness :
    (∀ e ∈ reconcile (.obj [("Cat", .obj [("k", .obj [("t", .str "x")]),
          ("k2", .obj [("t", .str "y")])])])
        [⟨"Cat > k", 9⟩, ⟨"Cat > k2", 4⟩],
      e ∈ retrieveGuides (.obj [("Cat", .obj [("k", .obj [("t", .str "x")]),
          ("k2", .obj [("t", .str "y")])])])
        [⟨"Cat > k", 9⟩, ⟨"Cat > k2", 4⟩])
    ∧ ∀ e ∈ retrieveGuides (.obj [("Cat", .obj [("k", .obj [("t", .str "x")]),
          ("k2", .obj [("t", .str "y")])])])
        [⟨"Cat > k", 9⟩, ⟨"Cat > k2", 4⟩],
        (∃ m g, m ∈ ([⟨"Cat > k", 9⟩, ⟨"Cat > k2", 4⟩] : List Match)
          ∧ resolveMatch (.obj [("Cat", .obj [("k", .obj [("t", .str "x")]),
              ("k2", .obj [("t", .str "y")])])]) m.source = some (e.uid, g)
          ∧ e.score = m.score)
        ∧ ∀ m ∈ ([⟨"Cat > k", 9⟩, ⟨"Cat > k2", 4⟩] : List Match), ∀ g,
            resolveMatch (.obj [("Cat", .obj [("k", .obj [("t", .str "x")]),
              ("k2", .obj [("t", .str "y")])])]) m.source = some (e.uid, g)
            → m.score ≤ e.score :=
  dedup_keeps_max_score
    (.obj [("Cat", .obj [("k", .obj [("t", .str "x")]), ("k2", .obj [("t", .str "y")])])])
    [⟨"Cat > k", 9⟩, ⟨"Cat > k2", 4⟩] (by decide)
    (by simp [List.pairwise_cons])

/-- Claim C5 (corrected), counterexample: a match whose key is missing from
its keyed category is not always dropped — the absent key `"constructor"`
resolves through `Object.prototype` and the match appears in the
response. -/
theorem unresolvable_drop_counterexample :
    lookupKey [("a", JSValue.obj [("t", .str "x")])] "constructor" = none
    ∧ searchResults (.obj [("Cat", .obj [("a", .obj [("t", .str "x")])])])
        [⟨"Cat > constructor", 3⟩]
      = [.obj [("id", .str "constructor"), ("score", .num 3)]] :=
  ⟨rfl, rfl⟩

/-- Claim C5 (amended): resolution is a total function (no error is ever
raised), and a match that fails to resolve is silently dropped: the
response equals the response without that match, and when no match resolves
the response is the empty array.  Unknown categories and missing keys are
unresolvable except when the name is inherited from `Object.prototype`; the
last two conjuncts prove the unknown-category and missing-key cases with
that proviso. -/
theorem unresolvable_matches_dropped (gd : JSValue) (pre post : List Match) (m : Match)
    (hfrag : ∀ x ∈ pre ++ m :: post, inFragment gd x.source = true)
    (hm : resolveMatch gd m.source = none) :
    (searchResults gd (pre ++ m :: post) = searchResults gd (pre ++ post)
      ∧ ((∀ x ∈ pre ++ post, resolveMatch gd x.source = none)
          → searchResults gd (pre ++ m :: post) = []))
    ∧ (∀ (root : List (String × JSValue)) (src c k : String),
        jsSplit src = [c, k] → lookupKey root c = none → objectProtoGet c = none →
        resolveMatch (.obj root) src = none)
    ∧ (∀ (root fields : List (String × JSValue)) (src c k : String),
        jsSplit src = [c, k] → lookupKey root c = some (.obj fields) →
        lookupKey fields k = none → objectProtoGet k = none →
        resolveMatch (.obj root) src = none) := by
  have hdrop : retrieveGuides gd (pre ++ m :: post) = retrieveGuides gd (pre ++ post) := by
    unfold retrieveGuides
    rw [List.foldl_append, List.foldl_append, List.foldl_cons, addMatch_none gd m hm _]
  refine ⟨⟨?_, ?_⟩, ?_, ?_⟩
  · unfold searchResults reconcile
    rw [hdrop]
  · intro hall
    unfold searchResults reconcile
    rw [hdrop]
    unfold retrieveGuides
    rw [foldl_addMatch_all_none gd (pre ++ post) hall []]
    rfl
  · intro root src c k hsplit hcat hproto
    have hjs : jsGet (.obj root) c = .undefined := by
      rw [jsGet_obj, hcat, hproto]
      rfl
    rw [resolveMatch_split _ _ _ _ hsplit, resolveParts_falsy _ _ _ _ hjs rfl]
  · intro root fields src c k hsplit hcat hown hproto
    have hjs : jsGet (.obj root) c = .obj fields := by rw [jsGet_obj, hcat]
    have hkv : jsGet (.obj fields) k = .undefined := by
      rw [jsGet_obj, hown, hproto]
      rfl
    rw [resolveMatch_split _ _ _ _ hsplit,
      resolveParts_keyed (.obj root) c (some k) (.obj fields) hjs (by simp) rfl,
      Option.getD_some, hkv]
    rfl

/-- Witness for C5 (amended): an unknown-category match beside one
resolving match. -/
theorem unresolvable_matches_dropped_witness :
    (searchResults (.obj [("Cat", .obj [("a", .obj [("t", .str "x")])])])
        ([⟨"Cat > a", 2⟩] ++ (⟨"Nope > x", 1⟩ : Match) :: [])
      = searchResults (.obj [("Cat", .obj [("a", .obj [("t", .str "x")])])])
          ([⟨"Cat > a", 2⟩] ++ [])
      ∧ ((∀ x ∈ ([⟨"Cat > a", 2⟩] ++ ([] : List Match)),
            resolveMatch (.obj [("Cat", .obj [("a", .obj [("t", .str "x")])])]) x.source
              = none)
          → searchResults (.obj [("Cat", .obj [("a", .obj [("t", .str "x")])])])
              ([⟨"Cat > a", 2⟩] ++ (⟨"Nope > x", 1⟩ : Match) :: []) = []))
    ∧ (∀ (root : List (String × JSValue)) (src c k : String),
        jsSplit src = [c, k] → lookupKey root c = none → objectProtoGet c = none →
        resolveMatch (.obj root) src = none)
    ∧ (∀ (root fields : List (String × JSValue)) (src c k : String),
        jsSplit src = [c, k] → lookupKey root c = some (.obj fields) →
        lookupKey fields k = none → objectProtoGet k = none →
        resolveMatch (.obj root) src = none) :=
  unresolvable_matches_dropped (.obj [("Cat", .obj [("a", .obj [("t", .str "x")])])])
    [⟨"Cat > a", 2⟩] [] ⟨"Nope > x", 1⟩ (by decide) rfl

/-- Claim C8 (corrected), counterexample: an entry whose own fields are
`{id: "X", score: 42}`: in the response object the spread entry `id`
overwrites the initial uniqueId `"k"`, and the final `score` assignment
replaces the entry's own `score` by the match score 7 — the response
neither carries `id` equal to the uniqueId nor preserves all entry
fields. -/
theorem result_fields_counterexample :
    searchResults (.obj [("Cat", .obj [("k", .obj [("id", .str "X"), ("score", .num 42)])])])
        [⟨"Cat > k", 7⟩]
      = [.obj [("id", .str "X"), ("score", .num 7)]]
    ∧ "X" ≠ "k" ∧ (42 : Int) ≠ 7 :=
  ⟨rfl, by decide, by decide⟩

/-- Claim C8 (amended): every entry of the deduplicated map stores the
object `{id: uniqueId, ...entry, score: matchScore}` of the match that won
its uniqueId; for an entry that is a plain object with pairwise distinct
field names, the stored object's `score` is the match's score (an entry
`score` field is overwritten), every other entry field keeps its value (an
entry `id` field overrides the initial uniqueId), and when the entry has no
own `id` field the stored `id` is the uniqueId. -/
theorem result_fields_amended (gd : JSValue) (ml : List Match)
    (hfrag : ∀ m ∈ ml, inFragment gd m.source = true) :
    (∀ e ∈ retrieveGuides gd ml, ∃ m g, m ∈ ml
        ∧ resolveMatch gd m.source = some (e.uid, g)
        ∧ e.result = jsMkResult e.uid g m.score ∧ e.score = m.score)
    ∧ (∀ (u : Option String) (g : JSValue) (s : Int),
        lookupField (jsMkResult u g s) "score" = some (.num s))
    ∧ (∀ (u : Option String) (fields : List (String × JSValue)) (s : Int) (k : String)
        (v : JSValue), (fields.map Prod.fst).Nodup → k ≠ "score" →
        lookupKey fields k = some v →
        lookupField (jsMkResult u (.obj fields) s) k = some v)
    ∧ (∀ (u : Option String) (fields : List (String × JSValue)) (s : Int),
        lookupKey fields "id" = none →
        lookupField (jsMkResult u (.obj fields) s) "id" = some (uidVal u)) := by
  refine ⟨retrieve_provenance gd ml, lookupField_jsMkResult_score, ?_, ?_⟩
  · intro u fields s k v hnd hks hkv
    unfold jsMkResult lookupField
    dsimp only
    rw [lookupKey_setField_ne _ _ _ _ hks]
    have he : enumFields (.obj fields) = fields := rfl
    rw [he]
    exact lookupKey_spreadFold_of_some fields k v hnd hkv _
  · intro u fields s hid
    unfold jsMkResult lookupField
    dsimp only
    rw [lookupKey_setField_ne _ _ _ _ (by decide : ("id" : String) ≠ "score")]
    have he : enumFields (.obj fields) = fields := rfl
    rw [he, spread_none fields "id" hid]
    rfl

/-- Witness for C8 (amended) at a one-match list resolving to an entry
with a `title` field. -/
theorem result_fields_amended_witness :
    (∀ e ∈ retrieveGuides (.obj [("Cat", .obj [("k", .obj [("title", .str "t")])])])
        [⟨"Cat > k", 7⟩], ∃ m g, m ∈ ([⟨"Cat > k", 7⟩] : List Match)
        ∧ resolveMatch (.obj [("Cat", .obj [("k", .obj [("title", .str "t")])])]) m.source
            = some (e.uid, g)
        ∧ e.result = jsMkResult e.uid g m.score ∧ e.score = m.score)
    ∧ (∀ (u : Option String) (g : JSValue) (s : Int),
        lookupField (jsMkResult u g s) "score" = some (.num s))
    ∧ (∀ (u : Option String) (fields : List (String × JSValue)) (s : Int) (k : String)
        (v : JSValue), (fields.map Prod.fst).Nodup → k ≠ "score" →
        lookupKey fields k = some v →
        lookupField (jsMkResult u (.obj fields) s) k = some v)
    ∧ (∀ (u : Option String) (fields : List (String × JSValue)) (s : Int),
        lookupKey fields "id" = none →
        lookupField (jsMkResult u (.obj fields) s) "id" = some (uidVal u)) :=
  result_fields_amended (.obj [("Cat", .obj [("k", .obj [("title", .str "t")])])])
    [⟨"Cat > k", 7⟩] (by decide)

end Z3po
